import Mathlib

/-!
Verification of the py-datastore composition layer.

The definitions below are a shallow embedding of the repository source:
basic.py (the legacy object datastores) and core/binarystore.py (the
binary datastores).  Python dictionaries are embedded as insertion-ordered
association lists and Python exceptions as an explicit Except channel.
The Key and Query/Cursor primitives are not part of the source tree under
src/, so they are modelled from the specification where needed.
-/

namespace PyDatastore

/-- Modelled from the spec: a Key is an immutable hierarchical path value
with a canonical string representation such as /a/b/c; path drops the last
segment, and Key equality is equality of canonical strings.  The Key class
itself (core/key.py) is not under src/. -/
structure Key where
  segments : List String
deriving DecidableEq

/-- Parent namespace of a key: all segments but the last. -/
def Key.path (k : Key) : Key := ⟨k.segments.dropLast⟩

/-- Canonical string form of a key. -/
def Key.toStr (k : Key) : String := "/" ++ String.intercalate "/" k.segments

/-- Python exceptions relevant to the embedded code: keyError is the
NotFound signal of the datastore contract, runtimeError stands for any
internal backing-store error distinct from NotFound. -/
inductive PyErr where
  | keyError (k : Key)
  | runtimeError (msg : String)
deriving DecidableEq

/-- Lookup in an insertion-ordered association list (Python dict access). -/
def alookup {α : Type} : List (String × α) → String → Option α
  | [], _ => none
  | p :: rest, s => if p.1 = s then some p.2 else alookup rest s

/-- Assignment into an insertion-ordered association list: an existing key
keeps its position, a new key is appended at the end (Python dict
assignment semantics). -/
def aset {α : Type} : List (String × α) → String → α → List (String × α)
  | [], s, v => [(s, v)]
  | p :: rest, s, v => if p.1 = s then (s, v) :: rest else p :: aset rest s v

/-- Deletion of a key from an association list (Python del on a dict). -/
def aremove {α : Type} : List (String × α) → String → List (String × α)
  | [], _ => []
  | p :: rest, s => if p.1 = s then rest else p :: aremove rest s

theorem alookup_eq_none {α : Type} :
    ∀ (l : List (String × α)) (s : String), s ∉ l.map Prod.fst → alookup l s = none := by
  intro l s h
  induction l with
  | nil => rfl
  | cons p rest ih =>
    simp only [List.map_cons, List.mem_cons] at h
    push_neg at h
    have hp : ¬ p.1 = s := fun hp => h.1 hp.symm
    simp [alookup, hp, ih h.2]

theorem alookup_mem {α : Type} :
    ∀ (l : List (String × α)) (s : String) (v : α), alookup l s = some v → (s, v) ∈ l := by
  intro l s v h
  induction l with
  | nil => simp [alookup] at h
  | cons p rest ih =>
    by_cases hp : p.1 = s
    · simp only [alookup, hp, if_pos] at h
      injection h with h
      subst h
      have hp2 : p = (s, p.2) := by
        rw [Prod.ext_iff]
        exact ⟨hp, rfl⟩
      rw [← hp2]
      exact List.mem_cons_self p rest
    · simp only [alookup, hp, if_neg, not_false_iff] at h
      exact List.mem_cons_of_mem _ (ih h)

theorem alookup_aset {α : Type} :
    ∀ (l : List (String × α)) (s : String) (v : α), alookup (aset l s v) s = some v := by
  intro l s v
  induction l with
  | nil => simp [aset, alookup]
  | cons p rest ih =>
    by_cases hp : p.1 = s <;> simp [aset, alookup, hp, ih]

theorem alookup_aset_ne {α : Type} :
    ∀ (l : List (String × α)) (s t : String) (v : α), s ≠ t →
      alookup (aset l s v) t = alookup l t := by
  intro l s t v hst
  induction l with
  | nil => simp [aset, alookup, hst]
  | cons p rest ih =>
    by_cases hp : p.1 = s
    · simp [aset, alookup, hp, hst]
    · simp [aset, alookup, hp, ih]

theorem alookup_aremove_ne {α : Type} :
    ∀ (l : List (String × α)) (s t : String), s ≠ t →
      alookup (aremove l s) t = alookup l t := by
  intro l s t hst
  induction l with
  | nil => rfl
  | cons p rest ih =>
    by_cases hp : p.1 = s
    · simp [aremove, alookup, hp, hst]
    · simp [aremove, alookup, hp, ih]

theorem alookup_aremove_self {α : Type} :
    ∀ (l : List (String × α)) (s : String), (l.map Prod.fst).Nodup →
      alookup (aremove l s) s = none := by
  intro l s h
  induction l with
  | nil => rfl
  | cons p rest ih =>
    simp only [List.map_cons, List.nodup_cons] at h
    by_cases hp : p.1 = s
    · simp only [aremove, hp, if_pos]
      exact alookup_eq_none rest s (hp ▸ h.1)
    · simp [aremove, alookup, hp, ih h.2]

theorem map_fst_aset {α : Type} :
    ∀ (l : List (String × α)) (s : String) (v : α),
      (aset l s v).map Prod.fst =
        if s ∈ l.map Prod.fst then l.map Prod.fst else l.map Prod.fst ++ [s] := by
  intro l s v
  induction l with
  | nil => simp [aset]
  | cons p rest ih =>
    by_cases hp : p.1 = s
    · simp [aset, hp]
    · have : ¬ s = p.1 := fun h => hp h.symm
      simp [aset, hp, ih, this]
      by_cases hm : s ∈ rest.map Prod.fst <;> simp [hm, this]

theorem nodup_aset {α : Type} (l : List (String × α)) (s : String) (v : α)
    (h : (l.map Prod.fst).Nodup) : ((aset l s v).map Prod.fst).Nodup := by
  rw [map_fst_aset]
  by_cases hm : s ∈ l.map Prod.fst
  · simp [hm, h]
  · simp only [hm, if_neg, not_false_iff]
    exact List.Nodup.append h (List.nodup_singleton s) (by simp [List.disjoint_right, hm])

theorem alookup_append_of_none {α : Type} (l m : List (String × α)) (s : String)
    (h : alookup l s = none) : alookup (l ++ m) s = alookup m s := by
  induction l with
  | nil => rfl
  | cons p rest ih =>
    by_cases hp : p.1 = s
    · simp [alookup, hp] at h
    · simp only [alookup, hp, if_neg, not_false_iff] at h
      simp [alookup, hp, ih h]

/-- State of DictDatastore: nested insertion-ordered dictionaries, as in
basic.py and core/binarystore.py.  The outer dict maps a namespace string
(the str of key.path) to the inner collection dict of that namespace,
keyed by the canonical string of the key (Key equality is by canonical
string). -/
structure DictDatastore (V : Type) where
  items : List (String × List (String × V))
deriving DecidableEq

/-- Observable contents of a DictDatastore: the (namespace, key, value)
triples actually stored, ignoring empty namespace entries. -/
def DictDatastore.pairs {V : Type} (s : DictDatastore V) : List (String × String × V) :=
  s.items.flatMap fun p => p.2.map fun q => (p.1, q.1, q.2)

/-- Well-formedness of the embedded nested dictionaries: Python dict keys
are unique at both levels. -/
def DictDatastore.WF {V : Type} (s : DictDatastore V) : Prop :=
  (s.items.map Prod.fst).Nodup ∧ ∀ p ∈ s.items, (p.2.map Prod.fst).Nodup

instance {V : Type} (s : DictDatastore V) : Decidable s.WF := by
  unfold DictDatastore.WF
  exact inferInstance

namespace Basic

/-- Embeds DictDatastore._collection from basic.py: return the namespace
collection of the key, first inserting a fresh empty collection into the
items dict when the namespace is not yet present (a state mutation). -/
def collection {V : Type} (s : DictDatastore V) (k : Key) :
    DictDatastore V × List (String × V) :=
  match alookup s.items k.path.toStr with
  | some col => (s, col)
  | none => (⟨s.items ++ [(k.path.toStr, [])]⟩, [])

/-- Embeds DictDatastore.get from basic.py: return the stored object, or
None when the key is absent (the KeyError of the dict access is caught and
None returned). -/
def get {V : Type} (s : DictDatastore V) (k : Key) : DictDatastore V × Option V :=
  let r := collection s k
  (r.1, alookup r.2 k.toStr)

/-- Embeds DictDatastore.contains from basic.py: a membership test in the
namespace collection of the key. -/
def contains {V : Type} (s : DictDatastore V) (k : Key) : DictDatastore V × Bool :=
  let r := collection s k
  (r.1, (alookup r.2 k.toStr).isSome)

/-- Embeds DictDatastore.delete from basic.py.  The source wraps the del
in a try block whose except KeyError clause does nothing, so a missing key
produces no error; the Except channel records what escapes (always ok).
Deleting the last key of a namespace also removes the namespace entry. -/
def delete {V : Type} (s : DictDatastore V) (k : Key) :
    DictDatastore V × Except PyErr Unit :=
  let r := collection s k
  match alookup r.2 k.toStr with
  | none => (r.1, Except.ok ())
  | some _ =>
    let col := aremove r.2 k.toStr
    let items1 := aset r.1.items k.path.toStr col
    if col.length = 0 then (⟨aremove items1 k.path.toStr⟩, Except.ok ())
    else (⟨items1⟩, Except.ok ())

/-- Embeds DictDatastore.put from basic.py: a None value deletes the key,
any other value is assigned into the namespace collection.  A Python value
that may be None is embedded as an Option. -/
def put {V : Type} (s : DictDatastore V) (k : Key) (v : Option V) : DictDatastore V :=
  match v with
  | none => (delete s k).1
  | some w =>
    let r := collection s k
    ⟨aset r.1.items k.path.toStr (aset r.2 k.toStr w)⟩

end Basic

namespace Binary

/-- Embeds DictDatastore.get from core/binarystore.py: return the stored
value or raise KeyError when the key is absent.  The _collection helper is
character for character the one of basic.py, so it is shared. -/
def get {V : Type} (s : DictDatastore V) (k : Key) : DictDatastore V × Except PyErr V :=
  let r := Basic.collection s k
  match alookup r.2 k.toStr with
  | some v => (r.1, Except.ok v)
  | none => (r.1, Except.error (PyErr.keyError k))

/-- Embeds DictDatastore._put from core/binarystore.py: collect the value
stream and store it in the namespace collection of the key. -/
def put {V : Type} (s : DictDatastore V) (k : Key) (v : V) : DictDatastore V :=
  let r := Basic.collection s k
  ⟨aset r.1.items k.path.toStr (aset r.2 k.toStr v)⟩

/-- Embeds DictDatastore.delete from core/binarystore.py: the del on the
collection raises KeyError when the key is absent (and the empty-namespace
cleanup is then not reached); on success, an emptied namespace entry is
removed as well. -/
def delete {V : Type} (s : DictDatastore V) (k : Key) :
    DictDatastore V × Except PyErr Unit :=
  let r := Basic.collection s k
  match alookup r.2 k.toStr with
  | none => (r.1, Except.error (PyErr.keyError k))
  | some _ =>
    let col := aremove r.2 k.toStr
    let items1 := aset r.1.items k.path.toStr col
    if col.length = 0 then (⟨aremove items1 k.path.toStr⟩, Except.ok ())
    else (⟨items1⟩, Except.ok ())

/-- Embeds DictDatastore.contains from core/binarystore.py: a membership
test in the namespace collection of the key (identical to the basic.py
override). -/
def contains {V : Type} (s : DictDatastore V) (k : Key) : DictDatastore V × Bool :=
  Basic.contains s k

end Binary

theorem alookup_none_not_mem {α : Type} (l : List (String × α)) (s : String)
    (h : alookup l s = none) : s ∉ l.map Prod.fst := by
  induction l with
  | nil => simp
  | cons p rest ih =>
    by_cases hp : p.1 = s
    · simp [alookup, hp] at h
    · simp only [alookup, hp, if_neg, not_false_iff] at h
      simp only [List.map_cons, List.mem_cons]
      push_neg
      exact ⟨fun he => hp he.symm, ih h⟩

theorem collection_pairs {V : Type} (s : DictDatastore V) (k : Key) :
    ((Basic.collection s k).1).pairs = s.pairs ∧
      ((Basic.collection s k).1 = s ∨
        (Basic.collection s k).1 = ⟨s.items ++ [(k.path.toStr, [])]⟩) := by
  cases h : alookup s.items k.path.toStr with
  | some col => simp [Basic.collection, h]
  | none =>
    constructor
    · simp [Basic.collection, h, DictDatastore.pairs]
    · right
      simp [Basic.collection, h]

theorem collection_lookup {V : Type} (s : DictDatastore V) (k : Key) :
    alookup (Basic.collection s k).1.items k.path.toStr =
      some (Basic.collection s k).2 := by
  cases h : alookup s.items k.path.toStr with
  | some col => simp [Basic.collection, h]
  | none =>
    simp only [Basic.collection, h]
    rw [alookup_append_of_none _ _ _ h]
    simp [alookup]

theorem collection_WF {V : Type} (s : DictDatastore V) (k : Key) (h : s.WF) :
    ((Basic.collection s k).1).WF := by
  cases hc : alookup s.items k.path.toStr with
  | some col =>
    simp only [Basic.collection, hc]
    exact h
  | none =>
    have hnm := alookup_none_not_mem s.items k.path.toStr hc
    simp only [Basic.collection, hc]
    unfold DictDatastore.WF
    constructor
    · simp only [List.map_append, List.map_cons, List.map_nil]
      exact List.Nodup.append h.1 (List.nodup_singleton _)
        (by simp [List.disjoint_right, hnm])
    · intro p hp
      simp only [List.mem_append, List.mem_singleton] at hp
      rcases hp with hp | hp
      · exact h.2 p hp
      · subst hp
        simp

theorem collection_nodup {V : Type} (s : DictDatastore V) (k : Key) (h : s.WF) :
    (((Basic.collection s k).2).map Prod.fst).Nodup := by
  cases hc : alookup s.items k.path.toStr with
  | some col =>
    simp only [Basic.collection, hc]
    exact h.2 (k.path.toStr, col) (alookup_mem _ _ _ hc)
  | none => simp [Basic.collection, hc]

theorem collection_snd_of_none {V : Type} (s : DictDatastore V) (k : Key)
    (h : alookup s.items k.path.toStr = none) : (Basic.collection s k).2 = [] := by
  simp [Basic.collection, h]

theorem collection_snd_of_some {V : Type} (s : DictDatastore V) (k : Key)
    (col : List (String × V)) (h : alookup s.items k.path.toStr = some col) :
    (Basic.collection s k).2 = col := by
  simp [Basic.collection, h]

theorem collection_idem {V : Type} (s : DictDatastore V) (k : Key) :
    Basic.collection (Basic.collection s k).1 k =
      ((Basic.collection s k).1, (Basic.collection s k).2) := by
  show (match alookup (Basic.collection s k).1.items k.path.toStr with
    | some col => ((Basic.collection s k).1, col)
    | none => (⟨(Basic.collection s k).1.items ++ [(k.path.toStr, [])]⟩, [])) = _
  rw [collection_lookup s k]

theorem delete_success_state {V : Type} (s : DictDatastore V) (k : Key)
    (hWF : s.WF) (s1 : DictDatastore V)
    (h : Binary.delete s k = (s1, Except.ok ())) :
    alookup (Basic.collection s1 k).2 k.toStr = none := by
  rcases hck : alookup (Basic.collection s k).2 k.toStr with _ | v0
  · simp only [Binary.delete, hck] at h
    injection h with h1 h2
    cases h2
  · simp only [Binary.delete, hck] at h
    by_cases hlen : (aremove (Basic.collection s k).2 k.toStr).length = 0
    · rw [if_pos hlen] at h
      injection h with h1 h2
      subst h1
      have hnone : alookup
          (aremove (aset (Basic.collection s k).1.items k.path.toStr
            (aremove (Basic.collection s k).2 k.toStr)) k.path.toStr)
          k.path.toStr = none :=
        alookup_aremove_self _ _ (nodup_aset _ _ _ (collection_WF s k hWF).1)
      rw [collection_snd_of_none _ k hnone]
      rfl
    · rw [if_neg hlen] at h
      injection h with h1 h2
      subst h1
      have hsome : alookup
          (aset (Basic.collection s k).1.items k.path.toStr
            (aremove (Basic.collection s k).2 k.toStr)) k.path.toStr =
          some (aremove (Basic.collection s k).2 k.toStr) := alookup_aset _ _ _
      rw [collection_snd_of_some _ k _ hsome]
      exact alookup_aremove_self _ _ (collection_nodup s k hWF)

theorem delete_branches_state {V : Type} (s : DictDatastore V) (k : Key) :
    (Basic.delete s k).1 = (Binary.delete s k).1 := by
  rcases hck : alookup (Basic.collection s k).2 k.toStr with _ | v0
  · simp [Basic.delete, Binary.delete, hck]
  · simp only [Basic.delete, Binary.delete, hck]

theorem basic_delete_state_lookup {V : Type} (s : DictDatastore V) (k : Key)
    (hWF : s.WF) :
    alookup (Basic.collection (Basic.delete s k).1 k).2 k.toStr = none := by
  rcases hck : alookup (Basic.collection s k).2 k.toStr with _ | v0
  · have hd : (Basic.delete s k).1 = (Basic.collection s k).1 := by
      simp [Basic.delete, hck]
    rw [hd, collection_idem s k]
    exact hck
  · have h2 : (Binary.delete s k).2 = Except.ok () := by
      simp only [Binary.delete, hck]
      split <;> rfl
    have hbin : Binary.delete s k = ((Binary.delete s k).1, Except.ok ()) := by
      rw [← h2]
    rw [delete_branches_state]
    exact delete_success_state s k hWF (Binary.delete s k).1 hbin

/-- Amended C7: for the binary DictDatastore, after a successful delete the
key is gone — contains answers false and get raises KeyError — and deleting
an absent key raises KeyError while leaving the stored contents unchanged
(only a bookkeeping empty namespace entry may appear); for the legacy
basic.py DictDatastore, after any delete — of a present key or not — the
key is absent (contains false, get None), but deleting an absent key is a
silent no-op — the except clause swallows the KeyError — also leaving the
contents unchanged. -/
theorem delete_contract {V : Type} (s : DictDatastore V) (k : Key) (hWF : s.WF) :
    (∀ s1, Binary.delete s k = (s1, Except.ok ()) →
      (Basic.contains s1 k).2 = false ∧
        (Binary.get s1 k).2 = Except.error (PyErr.keyError k)) ∧
    ((Basic.contains s k).2 = false →
      (Binary.delete s k).2 = Except.error (PyErr.keyError k) ∧
        ((Binary.delete s k).1).pairs = s.pairs) ∧
    ((Basic.contains s k).2 = false →
      (Basic.delete s k).2 = Except.ok () ∧
        ((Basic.delete s k).1).pairs = s.pairs) ∧
    ((Basic.contains (Basic.delete s k).1 k).2 = false ∧
      (Basic.get (Basic.delete s k).1 k).2 = none) := by
  refine ⟨?_, ?_, ?_, ?_⟩
  · intro s1 h
    have hn := delete_success_state s k hWF s1 h
    constructor
    · simp [Basic.contains, hn]
    · simp [Binary.get, hn]
  · intro hfalse
    have hck : alookup (Basic.collection s k).2 k.toStr = none := by
      rcases ho : alookup (Basic.collection s k).2 k.toStr with _ | v
      · rfl
      · exfalso
        simp [Basic.contains, ho] at hfalse
    constructor
    · simp [Binary.delete, hck]
    · have hd : (Binary.delete s k).1 = (Basic.collection s k).1 := by
        simp [Binary.delete, hck]
      rw [hd]
      exact (collection_pairs s k).1
  · intro hfalse
    have hck : alookup (Basic.collection s k).2 k.toStr = none := by
      rcases ho : alookup (Basic.collection s k).2 k.toStr with _ | v
      · rfl
      · exfalso
        simp [Basic.contains, ho] at hfalse
    constructor
    · simp [Basic.delete, hck]
    · have hd : (Basic.delete s k).1 = (Basic.collection s k).1 := by
        simp [Basic.delete, hck]
      rw [hd]
      exact (collection_pairs s k).1
  · have hn := basic_delete_state_lookup s k hWF
    constructor
    · simp [Basic.contains, hn]
    · simp [Basic.get, hn]

/-- Counterexample for C7: on the legacy basic.py DictDatastore, deleting a
key that is not present does not signal NotFound — the operation returns
normally (the KeyError is caught and ignored). -/
theorem delete_missing_silent_cex :
    (Basic.contains (⟨[]⟩ : DictDatastore Nat) ⟨["a", "b"]⟩).2 = false ∧
      (Basic.delete (⟨[]⟩ : DictDatastore Nat) ⟨["a", "b"]⟩).2 = Except.ok () :=
  ⟨rfl, rfl⟩

/-- Witness for the amended C7: deleting the one stored key from a concrete
binary DictDatastore leaves a store on which contains is false and get
raises KeyError; the same deletion on the legacy store also leaves the key
absent. -/
theorem delete_contract_witness :
    ((Basic.contains (⟨[]⟩ : DictDatastore Nat) ⟨["a", "b"]⟩).2 = false ∧
      (Binary.get (⟨[]⟩ : DictDatastore Nat) ⟨["a", "b"]⟩).2 =
        Except.error (PyErr.keyError ⟨["a", "b"]⟩)) ∧
    (Basic.contains
      (Basic.delete (⟨[("/a", [("/a/b", 3)])]⟩ : DictDatastore Nat)
        ⟨["a", "b"]⟩).1 ⟨["a", "b"]⟩).2 = false :=
  ⟨(delete_contract (⟨[("/a", [("/a/b", 3)])]⟩ : DictDatastore Nat) ⟨["a", "b"]⟩
      (by decide)).1 ⟨[]⟩ rfl,
   ((delete_contract (⟨[("/a", [("/a/b", 3)])]⟩ : DictDatastore Nat) ⟨["a", "b"]⟩
      (by decide)).2.2.2).1⟩

/-- Amended C9: the read operations never change the stored contents — the
(namespace, key, value) triples are the same before and after a get or
contains, on both the legacy and the binary DictDatastore — but probing a
key whose namespace is absent does append an empty namespace entry to the
internal items dict (the second disjunct), so the raw internal mapping is
not always left identical. -/
theorem read_ops_preserve_contents {V : Type} (s : DictDatastore V) (k : Key) :
    ((Basic.get s k).1).pairs = s.pairs ∧
    ((Basic.contains s k).1).pairs = s.pairs ∧
    ((Binary.get s k).1).pairs = s.pairs ∧
    ((Basic.get s k).1 = s ∨
      (Basic.get s k).1 = ⟨s.items ++ [(k.path.toStr, [])]⟩) := by
  have hp := collection_pairs s k
  refine ⟨?_, ?_, ?_, ?_⟩
  · simpa [Basic.get] using hp.1
  · simpa [Basic.contains] using hp.1
  · rcases hck : alookup (Basic.collection s k).2 k.toStr with _ | v
    · simpa [Binary.get, hck] using hp.1
    · simpa [Binary.get, hck] using hp.1
  · simpa [Basic.get] using hp.2

/-- Counterexample for C9: probing a missing key on an empty legacy
DictDatastore mutates the internal items mapping — an empty namespace
collection entry is created by the _collection helper. -/
theorem get_inserts_namespace_cex :
    (Basic.get (⟨[]⟩ : DictDatastore Nat) ⟨["a", "b"]⟩).1 ≠ ⟨[]⟩ := by
  decide

/-- C10: on the legacy basic.py DictDatastore, put with value None acts as
a deletion — afterwards contains is false and get returns None, whatever
was stored before — while put with a non-None value is a real store: a get
of the key then returns exactly that value. -/
theorem put_none_acts_as_delete {V : Type} (s : DictDatastore V) (k : Key)
    (hWF : s.WF) :
    (Basic.contains (Basic.put s k none) k).2 = false ∧
    (Basic.get (Basic.put s k none) k).2 = none ∧
    ∀ w : V, (Basic.get (Basic.put s k (some w)) k).2 = some w := by
  have hput : Basic.put s k none = (Basic.delete s k).1 := rfl
  have hn := basic_delete_state_lookup s k hWF
  refine ⟨?_, ?_, ?_⟩
  · rw [hput]
    simp [Basic.contains, hn]
  · rw [hput]
    simp [Basic.get, hn]
  · intro w
    have hl : alookup (Basic.put s k (some w)).items k.path.toStr =
        some (aset (Basic.collection s k).2 k.toStr w) := by
      show alookup (aset (Basic.collection s k).1.items k.path.toStr
        (aset (Basic.collection s k).2 k.toStr w)) k.path.toStr = _
      exact alookup_aset _ _ _
    have hc2 : (Basic.collection (Basic.put s k (some w)) k).2 =
        aset (Basic.collection s k).2 k.toStr w :=
      collection_snd_of_some _ k _ hl
    simp [Basic.get, hc2, alookup_aset]

/-- Witness for C10 on a concrete store holding one key: put None removes
it, put 9 stores 9. -/
theorem put_none_acts_as_delete_witness :
    (Basic.contains
      (Basic.put (⟨[("/a", [("/a/b", 3)])]⟩ : DictDatastore Nat) ⟨["a", "b"]⟩ none)
      ⟨["a", "b"]⟩).2 = false ∧
    (Basic.get
      (Basic.put (⟨[("/a", [("/a/b", 3)])]⟩ : DictDatastore Nat) ⟨["a", "b"]⟩
        (some 9))
      ⟨["a", "b"]⟩).2 = some 9 :=
  ⟨(put_none_acts_as_delete (⟨[("/a", [("/a/b", 3)])]⟩ : DictDatastore Nat)
      ⟨["a", "b"]⟩ (by decide)).1,
   (put_none_acts_as_delete (⟨[("/a", [("/a/b", 3)])]⟩ : DictDatastore Nat)
      ⟨["a", "b"]⟩ (by decide)).2.2 9⟩

/-- Modelled from the spec: a Query carries a non-negative offset
(default 0) and an optional positive limit (default unset); the filter and
order lists default to empty and are omitted here, since with the default
empty order the reordering step is the identity.  The Query class
(core/query.py) is not under src/. -/
structure Query where
  offset : Nat
  limit : Option Nat
deriving DecidableEq

/-- Modelled from the spec: a Cursor bound to one query and one source
sequence applies offset then limit, and its counters skipped and returned
report how many source items were consumed while skipping and how many
were output.  The stitching loop of basic.py always drains each shard
cursor completely, so the cursor is embedded as eagerly consumed.  The
Cursor class (core/query.py) is not under src/. -/
structure Cursor (α : Type) where
  items : List α
  skipped : Nat
  returned : Nat
deriving DecidableEq

/-- Result of issuing a query against one source sequence: drop the first
offset items (counting how many were actually present), then truncate to
the limit when one is set. -/
def runQuery {α : Type} (stream : List α) (q : Query) : Cursor α :=
  let afterOffset := stream.drop q.offset
  let out := match q.limit with
    | none => afterOffset
    | some n => afterOffset.take n
  { items := out, skipped := min q.offset stream.length, returned := out.length }

namespace ShardedDatastore

/-- Embeds ShardedDatastore.shard_query_generator from basic.py, acting on
the per-shard result streams: query each shard in registration order with
the running query and yield its items; afterwards shrink the running
offset by the skipped count of the shard cursor (floored at zero by the
max with 0 in the source, here by Nat subtraction) and, when the running
limit is set and nonzero (Python truthiness of shard_query.limit), shrink
the limit by the returned count and stop as soon as it reaches zero. -/
def shard_query_generator {α : Type} : List (List α) → Query → List α
  | [], _ => []
  | shard :: rest, q =>
    let cursor := runQuery shard q
    let offset1 := q.offset - cursor.skipped
    match q.limit with
    | none => cursor.items ++ shard_query_generator rest ⟨offset1, none⟩
    | some n =>
      if n = 0 then cursor.items ++ shard_query_generator rest ⟨offset1, some 0⟩
      else
        let n1 := n - cursor.returned
        if n1 = 0 then cursor.items
        else cursor.items ++ shard_query_generator rest ⟨offset1, some n1⟩

/-- Embeds ShardedDatastore.query from basic.py: wrap the generator in a
cursor and apply the reordering pass, which with the default empty order
list of the query is the identity (order lists are modelled from the spec
as empty, see Query above). -/
def query {α : Type} (shards : List (List α)) (q : Query) : List α :=
  shard_query_generator shards q

theorem shard_query_generator_eq_flatten {α : Type} :
    ∀ (shards : List (List α)) (q : Query),
      shard_query_generator shards q = (runQuery shards.flatten q).items := by
  intro shards
  induction shards with
  | nil =>
    intro q
    obtain ⟨o, l⟩ := q
    cases l <;> simp [shard_query_generator, runQuery]
  | cons shard rest ih =>
    intro q
    obtain ⟨o, l⟩ := q
    have hdrop : (shard ++ rest.flatten).drop o =
        shard.drop o ++ rest.flatten.drop (o - shard.length) :=
      List.drop_append_eq_append_drop
    have hoff : o - min o shard.length = o - shard.length := by omega
    match l with
    | none =>
      have hgen : shard_query_generator (shard :: rest) ⟨o, none⟩ =
          shard.drop o ++ shard_query_generator rest ⟨o - min o shard.length, none⟩ := rfl
      have hrhs : (runQuery (shard :: rest).flatten ⟨o, none⟩).items =
          (shard ++ rest.flatten).drop o := rfl
      have hrec : (runQuery rest.flatten ⟨o - min o shard.length, none⟩).items =
          rest.flatten.drop (o - min o shard.length) := rfl
      rw [hgen, ih, hrhs, hrec, hdrop, hoff]
    | some n =>
      have hgen : shard_query_generator (shard :: rest) ⟨o, some n⟩ =
          if n = 0 then
            (shard.drop o).take n ++
              shard_query_generator rest ⟨o - min o shard.length, some 0⟩
          else if n - ((shard.drop o).take n).length = 0 then (shard.drop o).take n
          else (shard.drop o).take n ++
            shard_query_generator rest ⟨o - min o shard.length,
              some (n - ((shard.drop o).take n).length)⟩ := rfl
      have hrhs : (runQuery (shard :: rest).flatten ⟨o, some n⟩).items =
          ((shard ++ rest.flatten).drop o).take n := rfl
      have e2 : n - ((shard.drop o).take n).length = n - (shard.drop o).length := by
        rw [List.length_take]
        omega
      by_cases hn : n = 0
      · subst hn
        rw [hgen, if_pos rfl, ih, hrhs]
        have hrec : (runQuery rest.flatten ⟨o - min o shard.length, some 0⟩).items =
            (rest.flatten.drop (o - min o shard.length)).take 0 := rfl
        rw [hrec]
        simp
      · rw [hgen, if_neg hn, hrhs, hdrop, List.take_append_eq_append_take]
        by_cases h1 : n - ((shard.drop o).take n).length = 0
        · rw [if_pos h1]
          have h0 : n - (shard.drop o).length = 0 := by omega
          rw [h0]
          simp
        · rw [if_neg h1, ih]
          have hrec : (runQuery rest.flatten
              ⟨o - min o shard.length, some (n - ((shard.drop o).take n).length)⟩).items =
              (rest.flatten.drop (o - min o shard.length)).take
                (n - ((shard.drop o).take n).length) := rfl
          rw [hrec, hoff, e2]

/-- C1: for a ShardedDatastore with a non-empty shard list, the items
produced by query are exactly the offset/limit slice of the concatenation
of the per-shard result streams in registration order. -/
theorem query_eq_concat_slice {α : Type} (shards : List (List α)) (q : Query)
    (_hne : shards ≠ []) :
    query shards q = (runQuery shards.flatten q).items :=
  shard_query_generator_eq_flatten shards q

/-- Witness for C1 at a concrete input: four shards, offset 2, limit 4. -/
theorem query_eq_concat_slice_witness :
    query [[0, 1, 2], [3], [4, 5], [6, 7, 8]] ⟨2, some 4⟩ =
      (runQuery ([[0, 1, 2], [3], [4, 5], [6, 7, 8]] : List (List Nat)).flatten
        ⟨2, some 4⟩).items :=
  query_eq_concat_slice _ _ (by decide)

end ShardedDatastore

/-- An arbitrary child datastore object held by a DatastoreCollection: its
Python object identity (oid), its get and put behaviour as state
transformers, and its current state.  In basic.py no store class overrides
the default object equality, so the comparison used by the backfill loop
of TieredDatastore.get (store == store2 in the source) is object identity,
embedded as equality of oid.  The legacy get returns the value or None,
embedded as an Option; any operation may raise. -/
structure StoreObj (σ V : Type) where
  oid : Nat
  getFn : σ → Key → σ × Except PyErr (Option V)
  putFn : σ → Key → V → σ × Except PyErr Unit
  state : σ

namespace TieredDatastore

/-- First loop of TieredDatastore.get (basic.py): scan the stores in
order, stopping at the first store whose get returns a non-None value and
remembering that store (by identity); every visited store keeps its
updated state, and an exception from a get aborts the whole call. -/
def getScan {σ V : Type} (k : Key) :
    List (StoreObj σ V) → List (StoreObj σ V) × Except PyErr (Option (V × Nat))
  | [] => ([], Except.ok none)
  | t :: ts =>
    match t.getFn t.state k with
    | (s1, Except.error e) => ({t with state := s1} :: ts, Except.error e)
    | (s1, Except.ok (some v)) =>
      ({t with state := s1} :: ts, Except.ok (some (v, t.oid)))
    | (s1, Except.ok none) =>
      let r := getScan k ts
      ({t with state := s1} :: r.1, r.2)

/-- Second loop of TieredDatastore.get (basic.py): put the found value
into every store before the hit store, stopping at the store whose
identity equals the hit store; a put exception aborts the loop at once
(the source has no try block here), leaving later stores untouched. -/
def putBackfill {σ V : Type} (hid : Nat) (k : Key) (v : V) :
    List (StoreObj σ V) → List (StoreObj σ V) × Option PyErr
  | [] => ([], none)
  | t :: ts =>
    if t.oid = hid then (t :: ts, none)
    else
      match t.putFn t.state k v with
      | (s1, Except.ok _) =>
        let r := putBackfill hid k v ts
        ({t with state := s1} :: r.1, r.2)
      | (s1, Except.error e) => ({t with state := s1} :: ts, some e)

/-- Embeds TieredDatastore.get from basic.py: scan for the first store
holding the key, then write the value back into every earlier store. -/
def get {σ V : Type} (tiers : List (StoreObj σ V)) (k : Key) :
    List (StoreObj σ V) × Except PyErr (Option V) :=
  match getScan k tiers with
  | (tiers1, Except.error e) => (tiers1, Except.error e)
  | (tiers1, Except.ok none) => (tiers1, Except.ok none)
  | (tiers1, Except.ok (some (v, hid))) =>
    match putBackfill hid k v tiers1 with
    | (tiers2, none) => (tiers2, Except.ok (some v))
    | (tiers2, some e) => (tiers2, Except.error e)

/-- Embeds TieredDatastore.put from basic.py: write through every store in
order; an exception from one store propagates at once, the stores already
written keep the write and the remaining stores are not attempted. -/
def put {σ V : Type} : List (StoreObj σ V) → Key → V →
    List (StoreObj σ V) × Option PyErr
  | [], _, _ => ([], none)
  | t :: ts, k, v =>
    match t.putFn t.state k v with
    | (s1, Except.ok _) =>
      let r := put ts k v
      ({t with state := s1} :: r.1, r.2)
    | (s1, Except.error e) => ({t with state := s1} :: ts, some e)

theorem getScan_hit {σ V : Type} (k : Key) (v : V) :
    ∀ (A : List (StoreObj σ V)) (hit : StoreObj σ V) (B : List (StoreObj σ V)),
      (∀ t ∈ A, (t.getFn t.state k).2 = Except.ok none) →
      (hit.getFn hit.state k).2 = Except.ok (some v) →
      getScan k (A ++ hit :: B) =
        (A.map (fun t => {t with state := (t.getFn t.state k).1}) ++
           {hit with state := (hit.getFn hit.state k).1} :: B,
         Except.ok (some (v, hit.oid))) := by
  intro A hit B hA hhit
  induction A with
  | nil =>
    rcases hh : hit.getFn hit.state k with ⟨s1, r⟩
    rw [hh] at hhit
    simp only at hhit
    subst hhit
    simp [getScan, hh]
  | cons t A1 ih =>
    rcases ht : t.getFn t.state k with ⟨s1, r⟩
    have htt := hA t (List.mem_cons_self t A1)
    rw [ht] at htt
    simp only at htt
    subst htt
    have ih1 := ih (fun u hu => hA u (List.mem_cons_of_mem t hu))
    simp [getScan, ht, ih1]

theorem putBackfill_clean {σ V : Type} (hid : Nat) (k : Key) (v : V) :
    ∀ (A : List (StoreObj σ V)) (hit : StoreObj σ V) (B : List (StoreObj σ V)),
      hit.oid = hid →
      (∀ t ∈ A, t.oid ≠ hid) →
      (∀ t ∈ A, (t.putFn t.state k v).2 = Except.ok ()) →
      putBackfill hid k v (A ++ hit :: B) =
        (A.map (fun t => {t with state := (t.putFn t.state k v).1}) ++ hit :: B,
         none) := by
  intro A hit B hhit hid1 hput
  induction A with
  | nil => simp [putBackfill, hhit]
  | cons t A1 ih =>
    rcases ht : t.putFn t.state k v with ⟨s1, r⟩
    have htt := hput t (List.mem_cons_self t A1)
    rw [ht] at htt
    simp only at htt
    subst htt
    have ih1 := ih (fun u hu => hid1 u (List.mem_cons_of_mem t hu))
      (fun u hu => hput u (List.mem_cons_of_mem t hu))
    simp [putBackfill, hid1 t (List.mem_cons_self t A1), ht, ih1]

theorem putBackfill_fails {σ V : Type} (hid : Nat) (k : Key) (v : V)
    (sf : σ) (e : PyErr) :
    ∀ (P : List (StoreObj σ V)) (f : StoreObj σ V) (R : List (StoreObj σ V)),
      (∀ t ∈ P, t.oid ≠ hid) →
      (∀ t ∈ P, (t.putFn t.state k v).2 = Except.ok ()) →
      f.oid ≠ hid →
      f.putFn f.state k v = (sf, Except.error e) →
      putBackfill hid k v (P ++ f :: R) =
        (P.map (fun t => {t with state := (t.putFn t.state k v).1}) ++
           {f with state := sf} :: R,
         some e) := by
  intro P f R hidP hputP hidf hf
  induction P with
  | nil => simp [putBackfill, hidf, hf]
  | cons t P1 ih =>
    rcases ht : t.putFn t.state k v with ⟨s1, r⟩
    have htt := hputP t (List.mem_cons_self t P1)
    rw [ht] at htt
    simp only at htt
    subst htt
    have ih1 := ih (fun u hu => hidP u (List.mem_cons_of_mem t hu))
      (fun u hu => hputP u (List.mem_cons_of_mem t hu))
    simp [putBackfill, hidP t (List.mem_cons_self t P1), ht, ih1]

/-- C2: when TieredDatastore.get finds the value at the hit store — every
earlier store answers None, and the promotion puts succeed — the returned
value is the hit value, and it has been written into every store before
the hit store; the backfill stops at the hit store selected by object
identity (oid), so every earlier store, even one structurally equal to the
hit store, receives the write. -/
theorem get_hit_promotes {σ V : Type}
    (A : List (StoreObj σ V)) (hit : StoreObj σ V) (B : List (StoreObj σ V))
    (k : Key) (v : V)
    (hA : ∀ t ∈ A, (t.getFn t.state k).2 = Except.ok none)
    (hhit : (hit.getFn hit.state k).2 = Except.ok (some v))
    (hid : ∀ t ∈ A, t.oid ≠ hit.oid)
    (hput : ∀ t ∈ A, (t.putFn (t.getFn t.state k).1 k v).2 = Except.ok ()) :
    get (A ++ hit :: B) k =
      (A.map (fun t => {t with state := (t.putFn (t.getFn t.state k).1 k v).1}) ++
         {hit with state := (hit.getFn hit.state k).1} :: B,
       Except.ok (some v)) := by
  have hscan := getScan_hit k v A hit B hA hhit
  have hbf := putBackfill_clean hit.oid k v
    (A.map (fun t => {t with state := (t.getFn t.state k).1}))
    ({hit with state := (hit.getFn hit.state k).1}) B rfl
    (by
      intro t ht
      obtain ⟨u, hu, rfl⟩ := List.mem_map.mp ht
      exact hid u hu)
    (by
      intro t ht
      obtain ⟨u, hu, rfl⟩ := List.mem_map.mp ht
      exact hput u hu)
  simp only [get, hscan, hbf, List.map_map]
  rfl

/-- Amended C3: an exception from a promotion put inside
TieredDatastore.get propagates to the caller — the found value is not
returned — and the backfill stops at the failing store: earlier stores
keep the promoted value, later pre-hit stores only their get-probe state. -/
theorem get_promotion_failure_propagates {σ V : Type}
    (P : List (StoreObj σ V)) (f : StoreObj σ V) (Q : List (StoreObj σ V))
    (hit : StoreObj σ V) (B : List (StoreObj σ V)) (k : Key) (v : V)
    (sf : σ) (e : PyErr)
    (hA : ∀ t ∈ P ++ f :: Q, (t.getFn t.state k).2 = Except.ok none)
    (hhit : (hit.getFn hit.state k).2 = Except.ok (some v))
    (hid : ∀ t ∈ P ++ f :: Q, t.oid ≠ hit.oid)
    (hP : ∀ t ∈ P, (t.putFn (t.getFn t.state k).1 k v).2 = Except.ok ())
    (hf : f.putFn (f.getFn f.state k).1 k v = (sf, Except.error e)) :
    get ((P ++ f :: Q) ++ hit :: B) k =
      (P.map (fun t => {t with state := (t.putFn (t.getFn t.state k).1 k v).1}) ++
         {f with state := sf} ::
           (Q.map (fun t => {t with state := (t.getFn t.state k).1}) ++
             {hit with state := (hit.getFn hit.state k).1} :: B),
       Except.error e) := by
  have hscan := getScan_hit k v (P ++ f :: Q) hit B hA hhit
  have hmap : (P ++ f :: Q).map (fun t => {t with state := (t.getFn t.state k).1}) =
      P.map (fun t => {t with state := (t.getFn t.state k).1}) ++
        {f with state := (f.getFn f.state k).1} ::
          Q.map (fun t => {t with state := (t.getFn t.state k).1}) := by
    simp
  rw [hmap] at hscan
  have hbf := putBackfill_fails hit.oid k v sf e
    (P.map (fun t => {t with state := (t.getFn t.state k).1}))
    ({f with state := (f.getFn f.state k).1})
    (Q.map (fun t => {t with state := (t.getFn t.state k).1}) ++
      {hit with state := (hit.getFn hit.state k).1} :: B)
    (by
      intro t ht
      obtain ⟨u, hu, rfl⟩ := List.mem_map.mp ht
      exact hid u (List.mem_append_left _ hu))
    (by
      intro t ht
      obtain ⟨u, hu, rfl⟩ := List.mem_map.mp ht
      exact hP u hu)
    (hid f (List.mem_append_right _ (List.mem_cons_self f Q)))
    hf
  simp only [get, hscan]
  simp only [List.append_assoc, List.cons_append]
  simp only [hbf, List.map_map]
  rfl

/-- C4: TieredDatastore.put writes through the stores in order; when one
store fails, the error is surfaced, the stores before it keep the write,
and the stores after it are not attempted. -/
theorem put_partial_failure {σ V : Type}
    (A : List (StoreObj σ V)) (f : StoreObj σ V) (B : List (StoreObj σ V))
    (k : Key) (v : V) (sf : σ) (e : PyErr)
    (hA : ∀ t ∈ A, (t.putFn t.state k v).2 = Except.ok ())
    (hf : f.putFn f.state k v = (sf, Except.error e)) :
    put (A ++ f :: B) k v =
      (A.map (fun t => {t with state := (t.putFn t.state k v).1}) ++
         {f with state := sf} :: B,
       some e) := by
  induction A with
  | nil => simp [put, hf]
  | cons t A1 ih =>
    rcases ht : t.putFn t.state k v with ⟨s1, r⟩
    have htt := hA t (List.mem_cons_self t A1)
    rw [ht] at htt
    simp only at htt
    subst htt
    have ih1 := ih (fun u hu => hA u (List.mem_cons_of_mem t hu))
    simp [put, ht, ih1]

/-- Concrete key used by witnesses and counterexamples. -/
def kEx : Key := ⟨["a", "b"]⟩

/-- A concrete in-memory single-cell tier: the state is the optionally
stored value, get returns it, put overwrites it. -/
def okCell (i : Nat) (v0 : Option Nat) : StoreObj (Option Nat) Nat where
  oid := i
  getFn := fun s _ => (s, Except.ok s)
  putFn := fun _ _ v => (some v, Except.ok ())
  state := v0

/-- A concrete tier whose put always fails with an internal error. -/
def badCell (i : Nat) : StoreObj (Option Nat) Nat where
  oid := i
  getFn := fun s _ => (s, Except.ok s)
  putFn := fun s _ _ => (s, Except.error (PyErr.runtimeError "boom"))
  state := none

/-- Witness for C2: two tiers, the empty fast tier is backfilled with the
value 7 found in the second tier. -/
theorem get_hit_promotes_witness :
    get [okCell 0 none, okCell 1 (some 7)] kEx =
      ([okCell 0 (some 7), okCell 1 (some 7)], Except.ok (some 7)) := by
  have h := get_hit_promotes [okCell 0 none] (okCell 1 (some 7)) [] kEx 7
    (by
      intro t ht
      simp only [List.mem_singleton] at ht
      subst ht
      rfl)
    rfl
    (by
      intro t ht
      simp only [List.mem_singleton] at ht
      subst ht
      decide)
    (by
      intro t ht
      simp only [List.mem_singleton] at ht
      subst ht
      rfl)
  simpa [okCell] using h

/-- Counterexample for C3: the hit tier does hold the value 5, yet the get
call surfaces the promotion error instead of returning the value — the
source has no try block around the backfill puts. -/
theorem promotion_error_not_suppressed_cex :
    ((okCell 1 (some 5)).getFn (okCell 1 (some 5)).state kEx).2 =
        Except.ok (some 5) ∧
      (get [badCell 0, okCell 1 (some 5)] kEx).2 =
        Except.error (PyErr.runtimeError "boom") :=
  ⟨rfl, rfl⟩

/-- Witness for the amended C3: with a failing fast tier in front, the get
propagates the internal error and leaves the failing tier unwritten. -/
theorem get_promotion_failure_propagates_witness :
    get [badCell 0, okCell 1 (some 5)] kEx =
      ([badCell 0, okCell 1 (some 5)], Except.error (PyErr.runtimeError "boom")) := by
  have h := get_promotion_failure_propagates [] (badCell 0) [] (okCell 1 (some 5))
    [] kEx 5 none (PyErr.runtimeError "boom")
    (by
      intro t ht
      simp only [List.nil_append, List.mem_singleton] at ht
      subst ht
      rfl)
    rfl
    (by
      intro t ht
      simp only [List.nil_append, List.mem_singleton] at ht
      subst ht
      decide)
    (by
      intro t ht
      cases ht)
    rfl
  simpa [badCell, okCell] using h

/-- Witness for C4: three tiers, the middle one fails; tier 0 keeps the
write, tier 2 is untouched, the surfaced error is the middle tier error. -/
theorem put_partial_failure_witness :
    put [okCell 0 none, badCell 1, okCell 2 none] kEx 9 =
      ([okCell 0 (some 9), badCell 1, okCell 2 none],
       some (PyErr.runtimeError "boom")) := by
  have h := put_partial_failure [okCell 0 none] (badCell 1) [okCell 2 none]
    kEx 9 none (PyErr.runtimeError "boom")
    (by
      intro t ht
      simp only [List.mem_singleton] at ht
      subst ht
      rfl)
    rfl
  simpa [okCell, badCell] using h

end TieredDatastore

namespace Datastore

/-- Embeds the default Datastore.contains of core/binarystore.py: call get
inside a try block, close the returned stream and report true; the except
clause turns a KeyError into false, while every other exception escapes.
The abstract base class has no state of its own, so the abstract get of a
store is an arbitrary function from keys to a value or an exception. -/
def containsDefault {V : Type} (get : Key → Except PyErr V) (k : Key) :
    Except PyErr Bool :=
  match get k with
  | Except.ok _ => Except.ok true
  | Except.error (PyErr.keyError _) => Except.ok false
  | Except.error e => Except.error e

/-- C5: the default contains answers false exactly when get signals
NotFound (a KeyError), answers true on any found value, never raises
NotFound itself, and lets an internal error of get escape unchanged. -/
theorem containsDefault_spec {V : Type} (get : Key → Except PyErr V) (k : Key) :
    (containsDefault get k = Except.ok false ↔
      ∃ k1, get k = Except.error (PyErr.keyError k1)) ∧
    (∀ v, get k = Except.ok v → containsDefault get k = Except.ok true) ∧
    (∀ k1, containsDefault get k ≠ Except.error (PyErr.keyError k1)) ∧
    (∀ msg, get k = Except.error (PyErr.runtimeError msg) →
      containsDefault get k = Except.error (PyErr.runtimeError msg)) := by
  rcases hg : get k with e | v
  case ok =>
    have hcd : containsDefault get k = Except.ok true := by
      unfold containsDefault
      rw [hg]
    refine ⟨?_, ?_, ?_, ?_⟩
    · rw [hcd]
      constructor
      · intro h
        cases h
      · intro h
        obtain ⟨k1, hk1⟩ := h
        cases hk1
    · intro w hw
      exact hcd
    · intro k1
      rw [hcd]
      intro h
      cases h
    · intro msg hmsg
      cases hmsg
  case error =>
    cases e with
    | keyError k2 =>
      have hcd : containsDefault get k = Except.ok false := by
        unfold containsDefault
        rw [hg]
      refine ⟨?_, ?_, ?_, ?_⟩
      · rw [hcd]
        constructor
        · intro h
          exact ⟨k2, rfl⟩
        · intro h
          rfl
      · intro w hw
        cases hw
      · intro k1
        rw [hcd]
        intro h
        cases h
      · intro msg hmsg
        simp at hmsg
    | runtimeError m =>
      have hcd : containsDefault get k = Except.error (PyErr.runtimeError m) := by
        unfold containsDefault
        rw [hg]
      refine ⟨?_, ?_, ?_, ?_⟩
      · rw [hcd]
        constructor
        · intro h
          cases h
        · intro h
          obtain ⟨k1, hk1⟩ := h
          simp at hk1
      · intro w hw
        cases hw
      · intro k1
        rw [hcd]
        intro h
        injection h with h2
        cases h2
      · intro msg hmsg
        injection hmsg with h2
        injection h2 with h3
        subst h3
        exact hcd

/-- A concrete abstract-store get: one present key, every other key
missing. -/
def getPresent1 : Key → Except PyErr Nat :=
  fun k => if k.segments = ["present"] then Except.ok 1
    else Except.error (PyErr.keyError k)

/-- A concrete abstract-store get that always fails internally. -/
def getAlwaysInternal : Key → Except PyErr Nat :=
  fun _ => Except.error (PyErr.runtimeError "io")

/-- Witness for C5 on concrete get functions: false on a missing key, true
on the present key, internal errors pass through. -/
theorem containsDefault_spec_witness :
    containsDefault getPresent1 ⟨["x"]⟩ = Except.ok false ∧
    containsDefault getPresent1 ⟨["present"]⟩ = Except.ok true ∧
    containsDefault getAlwaysInternal ⟨["x"]⟩ =
      Except.error (PyErr.runtimeError "io") :=
  ⟨(containsDefault_spec getPresent1 ⟨["x"]⟩).1.mpr ⟨⟨["x"]⟩, rfl⟩,
   (containsDefault_spec getPresent1 ⟨["present"]⟩).2.1 1 rfl,
   (containsDefault_spec getAlwaysInternal ⟨["x"]⟩).2.2.2 "io" rfl⟩

end Datastore

/-- Abstract interface of a datastore for the adapter layer: the five
operations of the contract as state transformers over an explicit store
state; an arbitrary child datastore is an arbitrary inhabitant. -/
structure DSOps (σ V : Type) where
  get : σ → Key → σ × Except PyErr V
  put : σ → Key → V → σ × Except PyErr Unit
  delete : σ → Key → σ × Except PyErr Unit
  query : σ → Query → σ × Except PyErr (List V)
  contains : σ → Key → σ × Except PyErr Bool

/-- Abstract interface of a legacy basic.py datastore: get returns the
value or None (an Option), and contains answers a boolean; any operation
may raise.  An arbitrary child of a ShimDatastore is an arbitrary
inhabitant. -/
structure LegacyOps (σ V : Type) where
  get : σ → Key → σ × Except PyErr (Option V)
  put : σ → Key → V → σ × Except PyErr Unit
  delete : σ → Key → σ × Except PyErr Unit
  query : σ → Query → σ × Except PyErr (List V)
  contains : σ → Key → σ × Except PyErr Bool

/-- One invocation of a datastore operation (for observational
equivalence of whole call sequences). -/
inductive OpCall (V : Type) where
  | get (k : Key)
  | put (k : Key) (v : V)
  | delete (k : Key)
  | query (q : Query)
  | contains (k : Key)

/-- The outcome of one invocation: the returned value or the raised
exception, in the result channel of the respective operation. -/
inductive OpResult (V : Type) where
  | value (r : Except PyErr V)
  | done (r : Except PyErr Unit)
  | results (r : Except PyErr (List V))
  | flag (r : Except PyErr Bool)

/-- Run a sequence of operation calls against a store, threading the state
and collecting every outcome. -/
def DSOps.runOps {σ V : Type} (d : DSOps σ V) : σ → List (OpCall V) →
    σ × List (OpResult V)
  | s, [] => (s, [])
  | s, c :: cs =>
    let step : σ × OpResult V :=
      match c with
      | OpCall.get k => ((d.get s k).1, OpResult.value (d.get s k).2)
      | OpCall.put k v => ((d.put s k v).1, OpResult.done (d.put s k v).2)
      | OpCall.delete k => ((d.delete s k).1, OpResult.done (d.delete s k).2)
      | OpCall.query q => ((d.query s q).1, OpResult.results (d.query s q).2)
      | OpCall.contains k => ((d.contains s k).1, OpResult.flag (d.contains s k).2)
    let rest := DSOps.runOps d step.1 cs
    (rest.1, step.2 :: rest.2)

namespace Adapter

/-- Embeds Adapter from core/binarystore.py: every method body is a direct
delegation of the same method to the child datastore. -/
def ops {σ V : Type} (child : DSOps σ V) : DSOps σ V where
  get := fun s k => child.get s k
  put := fun s k v => child.put s k v
  delete := fun s k => child.delete s k
  query := fun s q => child.query s q
  contains := fun s k => child.contains s k

/-- A default binarystore Adapter wrapping a child datastore is
observationally identical to the child: any sequence of
get/put/delete/query/contains calls produces the same results, the same
errors and the same final child state.  (Adapter overrides all five
methods with literal delegations.) -/
theorem runOps_eq_child {σ V : Type} (child : DSOps σ V) (s : σ)
    (prog : List (OpCall V)) :
    (Adapter.ops child).runOps s prog = child.runOps s prog := by
  induction prog generalizing s with
  | nil => rfl
  | cons c cs ih =>
    cases c <;> simp [DSOps.runOps, Adapter.ops, ih]

end Adapter

namespace ShimDatastore

/-- Embeds ShimDatastore from basic.py: get, put, delete and query are
literal delegations to the child; contains is NOT defined by ShimDatastore
— the class inherits Datastore.contains, whose body is
self.get(key) is not None, so the inherited contains routes through the
delegated get (testing its value against None) rather than calling the
child contains. -/
def ops {σ V : Type} (childL : LegacyOps σ V) : LegacyOps σ V where
  get := fun s k => childL.get s k
  put := fun s k v => childL.put s k v
  delete := fun s k => childL.delete s k
  query := fun s q => childL.query s q
  contains := fun s k =>
    match childL.get s k with
    | (s1, Except.ok v) => (s1, Except.ok v.isSome)
    | (s1, Except.error e) => (s1, Except.error e)

end ShimDatastore

/-- Amended C6: a default Adapter is observationally identical to its
child on every operation sequence, contains included; a default
ShimDatastore delegates get, put, delete and query exactly, while its
contains is the inherited default — the delegated get tested against
None — so the result and the state change of shim.contains are those of
child.get, not of child.contains. -/
theorem adapter_shim_delegation {σ V : Type} (child : DSOps σ V)
    (childL : LegacyOps σ V) (s : σ) (k : Key) (v : V) (q : Query)
    (prog : List (OpCall V)) :
    (Adapter.ops child).runOps s prog = child.runOps s prog ∧
    (ShimDatastore.ops childL).get s k = childL.get s k ∧
    (ShimDatastore.ops childL).put s k v = childL.put s k v ∧
    (ShimDatastore.ops childL).delete s k = childL.delete s k ∧
    (ShimDatastore.ops childL).query s q = childL.query s q ∧
    ((ShimDatastore.ops childL).contains s k).1 = (childL.get s k).1 ∧
    ((ShimDatastore.ops childL).contains s k).2 =
      (match (childL.get s k).2 with
        | Except.ok w => Except.ok w.isSome
        | Except.error e => Except.error e) := by
  refine ⟨Adapter.runOps_eq_child child s prog, rfl, rfl, rfl, rfl, ?_, ?_⟩ <;>
    · rcases hg : childL.get s k with ⟨s1, r⟩
      cases r <;> simp [ShimDatastore.ops, hg]

/-- A concrete legacy child mimicking a two-tier TieredDatastore over the
single-cell tiers of the tiered witnesses: get scans and promotes through
TieredDatastore.get, while contains scans without writing, as the
basic.py TieredDatastore.contains does (each cell contains is its
state-preserving get tested for a value). -/
def tieredChild : LegacyOps (List (StoreObj (Option Nat) Nat)) Nat where
  get := fun s k => TieredDatastore.get s k
  put := fun s k v =>
    match TieredDatastore.put s k v with
    | (s1, none) => (s1, Except.ok ())
    | (s1, some e) => (s1, Except.error e)
  delete := fun s _ => (s, Except.ok ())
  query := fun s _ => (s, Except.ok [])
  contains := fun s k =>
    (s, Except.ok (s.any fun t =>
      match (t.getFn t.state k).2 with
      | Except.ok (some _) => true
      | _ => false))

/-- Counterexample for C6: wrapping the promoting tiered child in a
default Shim, contains through the shim routes through get and backfills
the fast tier, while contains invoked directly on the child changes no
state — the state change in the child differs. -/
theorem shim_contains_state_change_cex :
    ((ShimDatastore.ops tieredChild).contains
      [TieredDatastore.okCell 0 none, TieredDatastore.okCell 1 (some 5)]
      TieredDatastore.kEx).1 ≠
    (tieredChild.contains
      [TieredDatastore.okCell 0 none, TieredDatastore.okCell 1 (some 5)]
      TieredDatastore.kEx).1 := by
  have hL : ((ShimDatastore.ops tieredChild).contains
      [TieredDatastore.okCell 0 none, TieredDatastore.okCell 1 (some 5)]
      TieredDatastore.kEx).1 =
      [{TieredDatastore.okCell 0 none with state := some 5},
       {TieredDatastore.okCell 1 (some 5) with state := some 5}] := rfl
  have hR : (tieredChild.contains
      [TieredDatastore.okCell 0 none, TieredDatastore.okCell 1 (some 5)]
      TieredDatastore.kEx).1 =
      [TieredDatastore.okCell 0 none, TieredDatastore.okCell 1 (some 5)] := rfl
  rw [hL, hR]
  intro h
  simp [TieredDatastore.okCell] at h

/-- Embeds the CPython semantics of the stores=[] default argument of
DatastoreCollection.__init__ in basic.py: the default list object is
created once, when the def statement is evaluated at import time, and
every call omitting the argument binds that same object; __init__ then
stores the received list without copying (the isinstance check only
converts non-list arguments), so all default-constructed collections alias
the one shared list.  A world holds the shared default list and the lists
created explicitly by callers. -/
structure DefaultArgWorld (S : Type) where
  defaultList : List S
  owns : List (List S)
deriving DecidableEq

/-- Which list object the _stores attribute of a collection refers to. -/
inductive StoresRef where
  | sharedDefault
  | own (i : Nat)
deriving DecidableEq

/-- A DatastoreCollection instance: a reference to its _stores list. -/
structure DatastoreCollection where
  storesRef : StoresRef
deriving DecidableEq

namespace DatastoreCollection

/-- Construction with the argument omitted: _stores becomes the shared
default list object. -/
def initDefault {S : Type} (w : DefaultArgWorld S) :
    DefaultArgWorld S × DatastoreCollection :=
  (w, ⟨StoresRef.sharedDefault⟩)

/-- Construction with an explicitly supplied fresh list. -/
def initWith {S : Type} (w : DefaultArgWorld S) (stores : List S) :
    DefaultArgWorld S × DatastoreCollection :=
  ({w with owns := w.owns ++ [stores]}, ⟨StoresRef.own w.owns.length⟩)

/-- The current contents of the _stores list of a collection. -/
def stores {S : Type} (w : DefaultArgWorld S) (c : DatastoreCollection) : List S :=
  match c.storesRef with
  | StoresRef.sharedDefault => w.defaultList
  | StoresRef.own i => w.owns.getD i []

/-- Embeds appendDatastore from basic.py: append to the referenced
_stores list in place. -/
def appendDatastore {S : Type} (w : DefaultArgWorld S) (c : DatastoreCollection)
    (store : S) : DefaultArgWorld S :=
  match c.storesRef with
  | StoresRef.sharedDefault => {w with defaultList := w.defaultList ++ [store]}
  | StoresRef.own i => {w with owns := w.owns.set i (w.owns.getD i [] ++ [store])}

/-- The world at import time: the shared default list is empty and no
caller-supplied list exists yet. -/
def importWorld (S : Type) : DefaultArgWorld S := ⟨[], []⟩

/-- C8 failing input: two collections constructed with the stores argument
omitted share the one default list object, so appending the store 7 to the
first is visible through the second — whose member list the claim says
must stay empty. -/
theorem shared_default_bug :
    (stores
      (appendDatastore
        (initDefault (initDefault (importWorld Nat)).1).1
        (initDefault (importWorld Nat)).2 7)
      (initDefault (initDefault (importWorld Nat)).1).2 = [7]) ∧
    (stores
      (appendDatastore
        (initDefault (initDefault (importWorld Nat)).1).1
        (initDefault (importWorld Nat)).2 7)
      (initDefault (initDefault (importWorld Nat)).1).2 ≠ []) :=
  ⟨rfl, by decide⟩

end DatastoreCollection

end PyDatastore
